import Mathlib

/-!
Verification of the attendance aggregation and classification engine of
analyze_attendance.py against its natural-language specification.

The engine is embedded shallowly: timestamps are rational numbers measured
in minutes, a missing (NaN) cell is an Option none, and the non-finite
floating-point values that pandas produces on division by zero are made
explicit through the PFloat type.  Every definition follows the line of
the source it embeds, noted in its doc comment.
-/

namespace Attendance

/-- One parsed row of the attendance export (one join/leave interval).
userName and userEmail may be missing (NaN in the frame); joinTime and
leaveTime are parsed timestamps in minutes; durationMin is none when the
Duration(Minutes) cell was non-numeric (errors=coerce, line 82). -/
structure Row where
  userName : Option String
  userEmail : Option String
  joinTime : ℚ
  leaveTime : ℚ
  durationMin : Option ℚ
deriving DecidableEq

/-- The CONFIG dictionary (lines 22-31): authority identity, excluded
identities and the four classification thresholds. -/
structure Config where
  professor : String
  exclude : List String
  minAttendancePct : ℚ
  lateThresholdMin : ℚ
  earlyLeaveThresholdMin : ℚ
  ghostJoinMaxMin : ℚ
deriving DecidableEq

/-- The resolved class window: class_start and class_end (lines 88-92). -/
structure Window where
  start : ℚ
  stop : ℚ
deriving DecidableEq

/-- One aggregated participant record as built by agg_student together
with the reset_index name column (lines 106-124). -/
structure Summary where
  userName : String
  email : String
  totalMinutes : ℚ
  rawSessions : ℕ
  realSessions : ℕ
  firstJoin : ℚ
  lastLeave : ℚ
deriving DecidableEq

/-- A pandas float as observed by the derived-column computations: either
a finite rational or one of the non-finite values that float division by
zero produces. -/
inductive PFloat where
  | finite : ℚ → PFloat
  | posInf : PFloat
  | negInf : PFloat
  | nan : PFloat
deriving DecidableEq

/-- Round to the nearest integer, ties to even: the rounding mode of
Python round and of pandas Series.round. -/
def rhe (x : ℚ) : ℤ :=
  if x - (⌊x⌋ : ℚ) < 1/2 then ⌊x⌋
  else if 1/2 < x - (⌊x⌋ : ℚ) then ⌊x⌋ + 1
  else if ⌊x⌋ % 2 = 0 then ⌊x⌋ else ⌊x⌋ + 1

/-- round(x, 1) on an exact value: one decimal place, ties to even. -/
def round1 (x : ℚ) : ℚ := ((rhe (10 * x) : ℤ) : ℚ) / 10

/-- Minimum of a column, with an irrelevant default for the empty column
(the call sites only ever pass nonempty columns). -/
def listMinD : List ℚ → ℚ
  | [] => 0
  | x :: xs => xs.foldl min x

/-- Maximum of a column, with an irrelevant default for the empty column. -/
def listMaxD : List ℚ → ℚ
  | [] => 0
  | x :: xs => xs.foldl max x

/-- str.lower() on the ASCII range, written over the character list so
that it evaluates by kernel reduction. -/
def lowerStr (s : String) : String := String.mk (s.data.map Char.toLower)

/-- Truthiness of str(v).strip(): true when some character is not
whitespace. -/
def isBlank (s : String) : Bool := s.data.all Char.isWhitespace

/-- str.strip(): surrounding whitespace removed, written over the
character list so that it evaluates by kernel reduction. -/
def stripStr (s : String) : String :=
  String.mk (((s.data.dropWhile Char.isWhitespace).reverse.dropWhile Char.isWhitespace).reverse)

/-- Line 85: df[User Name].str.lower() == config[professor].lower().
A missing name compares unequal (NaN == anything is False). -/
def isProf (cfg : Config) (r : Row) : Bool :=
  match r.userName with
  | some n => lowerStr n == lowerStr cfg.professor
  | none => false

/-- Lines 85-92: class bounds from the professor rows when any exist,
otherwise extremal timestamps over all rows together with the printed
fallback warning (modelled as the Bool component, true = warning). -/
def resolveWindow (cfg : Config) (rows : List Row) : Option (Window × Bool) :=
  match rows with
  | [] => none
  | _ :: _ =>
    let profRows := rows.filter (isProf cfg)
    if profRows.isEmpty then
      some (⟨listMinD (rows.map (·.joinTime)), listMaxD (rows.map (·.leaveTime))⟩, true)
    else
      some (⟨listMinD (profRows.map (·.joinTime)), listMaxD (profRows.map (·.leaveTime))⟩, false)

/-- Lines 102-103: a row survives the staff filter when its lowered name
is not in the lowered exclude list; a missing name always survives
(NaN.isin(...) is False, and the filter negates it). -/
def notExcluded (cfg : Config) (r : Row) : Bool :=
  match r.userName with
  | some n => !((cfg.exclude.map lowerStr).contains (lowerStr n))
  | none => true

/-- The students frame of line 103. -/
def studentRows (cfg : Config) (rows : List Row) : List Row :=
  rows.filter (notExcluded cfg)

/-- Duration with the NaN-skipping of Series.sum: a missing duration
contributes 0 (line 108). -/
def durD (r : Row) : ℚ := r.durationMin.getD 0

/-- Line 107: first non-missing, non-blank email in row order; the
original (unstripped) value is kept, default empty string. -/
def firstEmail : List Row → String
  | [] => ""
  | r :: t =>
    match r.userEmail with
    | some s => if !(isBlank s) then s else firstEmail t
    | none => firstEmail t

/-- The group of rows groupby assigns to key n: exact, case-sensitive
equality of the User Name column with n (line 124). -/
def groupOf (rows : List Row) (n : String) : List Row :=
  rows.filter fun r => decide (r.userName = some n)

/-- Worker for key deduplication: keeps the first occurrence of every
key not already seen. -/
def dedupKeepFirstAux (seen : List String) : List String → List String
  | [] => []
  | x :: xs =>
    if seen.contains x then dedupKeepFirstAux seen xs
    else x :: dedupKeepFirstAux (x :: seen) xs

/-- The distinct group keys in order of first appearance (groupby drops
rows whose key is NaN, hence the filterMap at the call site). -/
def dedupKeepFirst (xs : List String) : List String := dedupKeepFirstAux [] xs

/-- agg_student (lines 106-122) applied to the group of key n. -/
def aggStudent (cfg : Config) (n : String) (grp : List Row) : Summary :=
  { userName := n
    email := firstEmail grp
    totalMinutes := round1 ((grp.map durD).sum)
    rawSessions := grp.length
    realSessions := (grp.filter fun r =>
      match r.durationMin with
      | some d => decide (cfg.ghostJoinMaxMin < d)
      | none => false).length
    firstJoin := listMinD (grp.map (·.joinTime))
    lastLeave := listMaxD (grp.map (·.leaveTime)) }

/-- Line 124: exclusion filter, groupby over the exact User Name column
(rows with a missing name belong to no group), one Summary per key. -/
def summarize (cfg : Config) (rows : List Row) : List Summary :=
  let students := studentRows cfg rows
  (dedupKeepFirst (students.filterMap (·.userName))).map fun n =>
    aggStudent cfg n (groupOf students n)

/-- Line 127: (Total_Minutes / class_duration * 100).round(1) under float
semantics: division by a zero duration silently yields a non-finite
value (positive/0 is +inf, 0/0 is NaN, negative/0 is -inf). -/
def pctAttended (total dur : ℚ) : PFloat :=
  if dur = 0 then
    if 0 < total then .posInf else if total < 0 then .negInf else .nan
  else .finite (round1 (total / dur * 100))

/-- Comparison pct >= threshold of line 139 under float semantics: +inf
compares greater, -inf and NaN compare False. -/
def PFloat.geQ : PFloat → ℚ → Bool
  | .finite q, m => decide (m ≤ q)
  | .posInf, _ => true
  | .negInf, _ => false
  | .nan, _ => false

/-- The derived columns of one summary row (lines 127-141). -/
structure Classified where
  pct : PFloat
  lateJoinMin : ℚ
  leftEarlyMin : ℚ
  isLate : Bool
  leftEarly : Bool
  reconnected : Bool
  ghostOnly : Bool
  status : String
deriving DecidableEq

/-- Lines 127-141: pct, late/early minutes (rounded to one decimal, then
clipped at 0), the strict boolean flags, and the status with its fixed
precedence Ghost Join, then Present, then Absent/Brief. -/
def classify (cfg : Config) (w : Window) (s : Summary) : Classified :=
  let dur := w.stop - w.start
  let pct := pctAttended s.totalMinutes dur
  let lateM := max (round1 (s.firstJoin - w.start)) 0
  let earlyM := max (round1 (w.stop - s.lastLeave)) 0
  let ghost := decide (s.totalMinutes ≤ cfg.ghostJoinMaxMin)
  { pct := pct
    lateJoinMin := lateM
    leftEarlyMin := earlyM
    isLate := decide (cfg.lateThresholdMin < lateM)
    leftEarly := decide (cfg.earlyLeaveThresholdMin < earlyM)
    reconnected := decide (1 < s.realSessions)
    ghostOnly := ghost
    status := if ghost then "Ghost Join"
              else if PFloat.geQ pct cfg.minAttendancePct then "Present"
              else "Absent/Brief" }

/-- One cell of pd.to_datetime over a column (lines 80-81): a missing
cell becomes NaT, an unparseable text raises (modelled as error). -/
def toDatetime (parseTs : String → Option ℚ) : Option String → Except Unit (Option ℚ)
  | none => .ok none
  | some s =>
    match parseTs s with
    | some t => .ok (some t)
    | none => .error ()

/-- pd.to_datetime over the whole column: the first unparseable cell
fails the entire conversion, no partial column is produced. -/
def parseColumn (parseTs : String → Option ℚ) : List (Option String) → Except Unit (List (Option ℚ))
  | [] => .ok []
  | c :: t =>
    match toDatetime parseTs c with
    | .error e => .error e
    | .ok v =>
      match parseColumn parseTs t with
      | .error e => .error e
      | .ok vs => .ok (v :: vs)

/-- A concrete timestamp text reader used to exercise the parse stage on
closed inputs: two well-formed texts parse, everything else fails. -/
def sampleParse (s : String) : Option ℚ :=
  if s = "2025-01-01 09:00" then some 540
  else if s = "2025-01-01 09:05" then some 545
  else none

/-- A concrete configuration with the default thresholds of CONFIG and an
empty exclude list. -/
def cfg0 : Config :=
  { professor := "prof"
    exclude := []
    minAttendancePct := 50
    lateThresholdMin := 10
    earlyLeaveThresholdMin := 10
    ghostJoinMaxMin := 2 }

/-- The result of a left fold by min is at most the initial value. -/
theorem foldl_min_le_init (xs : List ℚ) : ∀ a : ℚ, xs.foldl min a ≤ a := by
  induction xs with
  | nil => intro a; exact le_refl a
  | cons x t ih => intro a; exact le_trans (ih (min a x)) (min_le_left a x)

/-- The result of a left fold by min is at most every list element. -/
theorem foldl_min_le (xs : List ℚ) : ∀ a : ℚ, ∀ x ∈ xs, xs.foldl min a ≤ x := by
  induction xs with
  | nil => intro a x hx; cases hx
  | cons y t ih =>
    intro a x hx
    rcases List.mem_cons.mp hx with h | h
    · subst h; exact le_trans (foldl_min_le_init t (min a x)) (min_le_right a x)
    · exact ih (min a y) x h

/-- The result of a left fold by min is the initial value or an element. -/
theorem foldl_min_mem (xs : List ℚ) : ∀ a : ℚ, xs.foldl min a = a ∨ xs.foldl min a ∈ xs := by
  induction xs with
  | nil => intro a; exact Or.inl rfl
  | cons x t ih =>
    intro a
    rw [List.foldl_cons]
    rcases ih (min a x) with h | h
    · rcases min_choice a x with hm | hm
      · rw [h, hm]; exact Or.inl rfl
      · rw [h, hm]; exact Or.inr (List.mem_cons_self x t)
    · exact Or.inr (List.mem_cons_of_mem x h)

/-- The result of a left fold by max is at least the initial value. -/
theorem foldl_max_ge_init (xs : List ℚ) : ∀ a : ℚ, a ≤ xs.foldl max a := by
  induction xs with
  | nil => intro a; exact le_refl a
  | cons x t ih => intro a; exact le_trans (le_max_left a x) (ih (max a x))

/-- The result of a left fold by max is at least every list element. -/
theorem foldl_max_ge (xs : List ℚ) : ∀ a : ℚ, ∀ x ∈ xs, x ≤ xs.foldl max a := by
  induction xs with
  | nil => intro a x hx; cases hx
  | cons y t ih =>
    intro a x hx
    rcases List.mem_cons.mp hx with h | h
    · subst h; exact le_trans (le_max_right a x) (foldl_max_ge_init t (max a x))
    · exact ih (max a y) x h

/-- The result of a left fold by max is the initial value or an element. -/
theorem foldl_max_mem (xs : List ℚ) : ∀ a : ℚ, xs.foldl max a = a ∨ xs.foldl max a ∈ xs := by
  induction xs with
  | nil => intro a; exact Or.inl rfl
  | cons x t ih =>
    intro a
    rw [List.foldl_cons]
    rcases ih (max a x) with h | h
    · rcases max_choice a x with hm | hm
      · rw [h, hm]; exact Or.inl rfl
      · rw [h, hm]; exact Or.inr (List.mem_cons_self x t)
    · exact Or.inr (List.mem_cons_of_mem x h)

/-- On a nonempty column, listMinD returns an element of the column. -/
theorem listMinD_mem (xs : List ℚ) (h : xs ≠ []) : listMinD xs ∈ xs := by
  match xs with
  | [] => exact absurd rfl h
  | x :: t =>
    rcases foldl_min_mem t x with h1 | h1
    · rw [listMinD, h1]; exact List.mem_cons_self x t
    · rw [listMinD]; exact List.mem_cons_of_mem x h1

/-- listMinD bounds every element of the column from below. -/
theorem listMinD_le (xs : List ℚ) (x : ℚ) (hx : x ∈ xs) : listMinD xs ≤ x := by
  match xs with
  | [] => cases hx
  | y :: t =>
    rcases List.mem_cons.mp hx with h | h
    · subst h; rw [listMinD]; exact foldl_min_le_init t x
    · rw [listMinD]; exact foldl_min_le t y x h

/-- On a nonempty column, listMaxD returns an element of the column. -/
theorem listMaxD_mem (xs : List ℚ) (h : xs ≠ []) : listMaxD xs ∈ xs := by
  match xs with
  | [] => exact absurd rfl h
  | x :: t =>
    rcases foldl_max_mem t x with h1 | h1
    · rw [listMaxD, h1]; exact List.mem_cons_self x t
    · rw [listMaxD]; exact List.mem_cons_of_mem x h1

/-- listMaxD bounds every element of the column from above. -/
theorem listMaxD_ge (xs : List ℚ) (x : ℚ) (hx : x ∈ xs) : x ≤ listMaxD xs := by
  match xs with
  | [] => cases hx
  | y :: t =>
    rcases List.mem_cons.mp hx with h | h
    · subst h; rw [listMaxD]; exact foldl_max_ge_init t x
    · rw [listMaxD]; exact foldl_max_ge t y x h

/-- m is the minimum of a list of timestamps. -/
def isMinOf (m : ℚ) (xs : List ℚ) : Prop := m ∈ xs ∧ ∀ x ∈ xs, m ≤ x

/-- m is the maximum of a list of timestamps. -/
def isMaxOf (m : ℚ) (xs : List ℚ) : Prop := m ∈ xs ∧ ∀ x ∈ xs, x ≤ m

/-- C1: the final status is computed with fixed precedence: Ghost Join
whenever total_minutes is at most ghost_join_max_min regardless of
pct_attended; otherwise Present exactly when pct_attended compares at
least min_attendance_pct, else Absent/Brief; in particular total 1 with
ghost threshold 2 is always Ghost Join. -/
theorem claim1_status_precedence (cfg : Config) (w : Window) (s : Summary) :
    (s.totalMinutes ≤ cfg.ghostJoinMaxMin → (classify cfg w s).status = "Ghost Join") ∧
    (cfg.ghostJoinMaxMin < s.totalMinutes →
      (classify cfg w s).status =
        if PFloat.geQ (classify cfg w s).pct cfg.minAttendancePct then "Present"
        else "Absent/Brief") ∧
    (s.totalMinutes = 1 → cfg.ghostJoinMaxMin = 2 → (classify cfg w s).status = "Ghost Join") := by
  refine ⟨fun h => ?_, fun h => ?_, fun h1 h2 => ?_⟩
  · simp [classify, h]
  · simp [classify, not_le.mpr h]
  · have h : s.totalMinutes ≤ cfg.ghostJoinMaxMin := by rw [h1, h2]; norm_num
    simp [classify, h]

/-- A concrete summary with one attended minute. -/
def sGhost : Summary :=
  { userName := "Dana", email := "", totalMinutes := 1, rawSessions := 1
    realSessions := 0, firstJoin := 0, lastLeave := 1 }

/-- Witness for C1 at a concrete input: total 1, ghost threshold 2. -/
theorem claim1_witness : (classify cfg0 ⟨0, 60⟩ sGhost).status = "Ghost Join" :=
  (claim1_status_precedence cfg0 ⟨0, 60⟩ sGhost).2.2 rfl rfl

/-- C2: with at least one interval whose name matches the authority
case-insensitively, the window is the minimum join and maximum leave of
the matching intervals without warning; otherwise it is the extremal
timestamps over all intervals and the fallback warning is emitted. -/
theorem claim2_window_resolution (cfg : Config) (rows : List Row) (h : rows ≠ []) :
    ∃ w warn, resolveWindow cfg rows = some (w, warn) ∧
      (rows.filter (isProf cfg) ≠ [] →
        warn = false ∧
        isMinOf w.start ((rows.filter (isProf cfg)).map (·.joinTime)) ∧
        isMaxOf w.stop ((rows.filter (isProf cfg)).map (·.leaveTime))) ∧
      (rows.filter (isProf cfg) = [] →
        warn = true ∧
        isMinOf w.start (rows.map (·.joinTime)) ∧
        isMaxOf w.stop (rows.map (·.leaveTime))) := by
  match rows, h with
  | r :: t, _ =>
    by_cases hP : ((r :: t).filter (isProf cfg)).isEmpty
    · have hPnil : (r :: t).filter (isProf cfg) = [] := by
        rwa [List.isEmpty_iff] at hP
      refine ⟨⟨listMinD ((r :: t).map (·.joinTime)), listMaxD ((r :: t).map (·.leaveTime))⟩,
        true, ?_, fun hne => absurd hPnil hne, fun _ => ⟨rfl, ?_, ?_⟩⟩
      · simp [resolveWindow, hP]
      · exact ⟨listMinD_mem _ (by simp), fun x hx => listMinD_le _ x hx⟩
      · exact ⟨listMaxD_mem _ (by simp), fun x hx => listMaxD_ge _ x hx⟩
    · have hPne : (r :: t).filter (isProf cfg) ≠ [] := fun hnil => hP (by rw [hnil]; rfl)
      refine ⟨⟨listMinD (((r :: t).filter (isProf cfg)).map (·.joinTime)),
        listMaxD (((r :: t).filter (isProf cfg)).map (·.leaveTime))⟩,
        false, ?_, fun _ => ⟨rfl, ?_, ?_⟩, fun he => absurd he hPne⟩
      · simp [resolveWindow, hP]
      · exact ⟨listMinD_mem _ (by simpa using hPne), fun x hx => listMinD_le _ x hx⟩
      · exact ⟨listMaxD_mem _ (by simpa using hPne), fun x hx => listMaxD_ge _ x hx⟩

/-- A concrete non-authority row used to exercise the fallback. -/
def rowAlice : Row :=
  { userName := some "Alice", userEmail := some "alice@example.edu"
    joinTime := 0, leaveTime := 60, durationMin := some 60 }

/-- Witness for C2 at a concrete input: a single non-authority row makes
the resolver fall back and raise the warning flag. -/
theorem claim2_witness :
    ∃ w warn, resolveWindow cfg0 [rowAlice] = some (w, warn) ∧ warn = true := by
  obtain ⟨w, warn, h1, _, h3⟩ :=
    claim2_window_resolution cfg0 [rowAlice] (List.cons_ne_nil _ _)
  have hf : ([rowAlice].filter (isProf cfg0)) = [] := by decide
  exact ⟨w, warn, h1, (h3 hf).1⟩

/-- The configuration of the degenerate-window scenario: the authority is
also in the exclude list, as in the shipped CONFIG. -/
def cfgDeg : Config := { cfg0 with exclude := ["prof"] }

/-- Authority row of a degenerate session: joins and leaves at the same
instant. -/
def profRowDeg : Row :=
  { userName := some "Prof", userEmail := none
    joinTime := 540, leaveTime := 540, durationMin := some 0 }

/-- Student row of the degenerate session with five reported minutes. -/
def studentDeg : Row :=
  { userName := some "Dana", userEmail := none
    joinTime := 540, leaveTime := 540, durationMin := some 5 }

/-- The degenerate interval set. -/
def rowsDeg : List Row := [profRowDeg, studentDeg]

/-- C3: the code has no guard for a degenerate window: with start equal
to end the percentage column is computed anyway and silently carries the
non-finite value +inf (and the status comparison even turns it into
Present), instead of clamping to a sentinel or flagging the summary. -/
theorem claim3_degenerate_window_unguarded :
    resolveWindow cfgDeg rowsDeg = some (⟨540, 540⟩, false) ∧
    (540 : ℚ) - 540 = 0 ∧
    (summarize cfgDeg rowsDeg).map (fun s => (classify cfgDeg ⟨540, 540⟩ s).pct)
      = [PFloat.posInf] ∧
    (summarize cfgDeg rowsDeg).map (fun s => (classify cfgDeg ⟨540, 540⟩ s).status)
      = ["Present"] := by
  have e1 : lowerStr "Prof" = "prof" := rfl
  have e2 : lowerStr "Dana" = "dana" := rfl
  have e3 : lowerStr "prof" = "prof" := rfl
  have e4 : (("dana" : String) == "prof") = false := rfl
  refine ⟨?_, by norm_num, ?_, ?_⟩ <;>
    norm_num [resolveWindow, isProf, summarize, studentRows, notExcluded,
      dedupKeepFirst, dedupKeepFirstAux, groupOf, aggStudent, firstEmail, isBlank, durD,
      round1, rhe, listMinD, listMaxD, classify, pctAttended, PFloat.geQ, cfg0, cfgDeg,
      rowsDeg, profRowDeg, studentDeg, e1, e2, e3, e4, List.filter, List.filterMap,
      List.contains]

/-- C4: pandas to_datetime is called with its raising default, so one
unparseable timestamp cell fails the conversion of the whole column and
aborts the run: no partial column survives, although the same column
without the malformed cell converts fine. -/
theorem claim4_unparseable_aborts_run :
    parseColumn sampleParse [some "2025-01-01 09:00", some "2025-01-01 09:05"]
      = .ok [some 540, some 545] ∧
    parseColumn sampleParse [some "2025-01-01 09:00", some "garbage", some "2025-01-01 09:05"]
      = .error () :=
  ⟨rfl, rfl⟩

/-- Membership in the worker output: in the remaining keys and not
already seen. -/
theorem dedupKeepFirstAux_mem : ∀ (xs seen : List String) (a : String),
    a ∈ dedupKeepFirstAux seen xs ↔ (a ∈ xs ∧ ¬ a ∈ seen) := by
  intro xs
  induction xs with
  | nil => intro seen a; simp [dedupKeepFirstAux]
  | cons x t ih =>
    intro seen a
    rw [dedupKeepFirstAux]
    by_cases hx : seen.contains x
    · have hxs : x ∈ seen := by simpa using hx
      rw [if_pos hx, ih]
      constructor
      · rintro ⟨h1, h2⟩
        exact ⟨List.mem_cons_of_mem _ h1, h2⟩
      · rintro ⟨h1, h2⟩
        rcases List.mem_cons.mp h1 with he | h1
        · subst he; exact absurd hxs h2
        · exact ⟨h1, h2⟩
    · have hxs : ¬ x ∈ seen := by simpa using hx
      rw [if_neg hx, List.mem_cons, ih, List.mem_cons, List.mem_cons]
      by_cases hax : a = x
      · subst hax; simp [hxs]
      · simp [hax]

/-- The worker output has no duplicates. -/
theorem dedupKeepFirstAux_nodup : ∀ (xs seen : List String),
    (dedupKeepFirstAux seen xs).Nodup := by
  intro xs
  induction xs with
  | nil => intro seen; simp [dedupKeepFirstAux]
  | cons x t ih =>
    intro seen
    rw [dedupKeepFirstAux]
    by_cases hx : seen.contains x
    · rw [if_pos hx]
      exact ih seen
    · rw [if_neg hx]
      refine List.nodup_cons.mpr ⟨?_, ih (x :: seen)⟩
      rw [dedupKeepFirstAux_mem]
      rintro ⟨-, h2⟩
      exact h2 (List.mem_cons_self x seen)

/-- Membership in the deduplicated key list is membership in the
original list. -/
theorem dedupKeepFirst_mem (xs : List String) (a : String) :
    a ∈ dedupKeepFirst xs ↔ a ∈ xs := by
  rw [dedupKeepFirst, dedupKeepFirstAux_mem]
  simp

/-- The deduplicated key list has no duplicates. -/
theorem dedupKeepFirst_nodup (xs : List String) : (dedupKeepFirst xs).Nodup :=
  dedupKeepFirstAux_nodup xs []

/-- The name column of the produced summaries is exactly the
deduplicated key list of the non-excluded rows. -/
theorem summarize_names (cfg : Config) (rows : List Row) :
    (summarize cfg rows).map (·.userName)
      = dedupKeepFirst ((studentRows cfg rows).filterMap (·.userName)) := by
  simp [summarize, List.map_map, Function.comp_def, aggStudent]

/-- Row equal to rowAlice except for the casing of the name. -/
def rowAliceL : Row :=
  { userName := some "alice", userEmail := none
    joinTime := 0, leaveTime := 60, durationMin := some 60 }

/-- C5 as stated is false: two non-excluded rows whose names agree after
lower-casing and trimming but differ in case are grouped separately and
produce two ParticipantSummary records, not one. -/
theorem claim5_counterexample :
    rowAlice.userName = some "Alice" ∧ rowAliceL.userName = some "alice" ∧
    stripStr (lowerStr "Alice") = stripStr (lowerStr "alice") ∧
    (summarize cfg0 [rowAlice, rowAliceL]).map (·.userName) = ["Alice", "alice"] ∧
    (summarize cfg0 [rowAlice, rowAliceL]).length = 2 :=
  ⟨rfl, rfl, rfl, rfl, rfl⟩

/-- C5 amended: grouping is by exact (case-sensitive, untrimmed) equality
of the name string: there is exactly one summary per distinct exact name
among non-excluded rows, the displayed name being that exact string. -/
theorem claim5_exact_grouping (cfg : Config) (rows : List Row) :
    ((summarize cfg rows).map (·.userName)).Nodup ∧
    ∀ n : String, (n ∈ (summarize cfg rows).map (·.userName)) ↔
      ∃ r ∈ studentRows cfg rows, r.userName = some n := by
  constructor
  · rw [summarize_names]
    exact dedupKeepFirst_nodup _
  · intro n
    rw [summarize_names, dedupKeepFirst_mem, List.mem_filterMap]

/-- Witness for C5 amended at a concrete input: the identity alice is
listed among the summaries because a row bears exactly that name. -/
theorem claim5_witness :
    "alice" ∈ (summarize cfg0 [rowAlice, rowAliceL]).map (·.userName) :=
  ((claim5_exact_grouping cfg0 [rowAlice, rowAliceL]).2 "alice").mpr
    ⟨rowAliceL, by decide, rfl⟩

/-- C6: a row whose duration cell was non-numeric is summed as zero
minutes, but the row is kept: it still counts as a raw session, its
timestamps still bound first_join and last_leave, and window resolution
treats it exactly like the same row with a zero duration. -/
theorem claim6_null_duration (cfg : Config) (n : String) (r : Row) (grp rows : List Row)
    (hd : r.durationMin = none) :
    (aggStudent cfg n (r :: grp)).totalMinutes
      = (aggStudent cfg n ({ r with durationMin := some 0 } :: grp)).totalMinutes ∧
    (aggStudent cfg n (r :: grp)).rawSessions = grp.length + 1 ∧
    (aggStudent cfg n (r :: grp)).firstJoin ≤ r.joinTime ∧
    r.leaveTime ≤ (aggStudent cfg n (r :: grp)).lastLeave ∧
    resolveWindow cfg (r :: rows) = resolveWindow cfg ({ r with durationMin := some 0 } :: rows) := by
  refine ⟨?_, rfl, ?_, ?_, ?_⟩
  · simp [aggStudent, durD, hd]
  · exact listMinD_le _ _ (List.mem_map_of_mem _ (List.mem_cons_self r grp))
  · exact listMaxD_ge _ _ (List.mem_map_of_mem _ (List.mem_cons_self r grp))
  · have hIs : isProf cfg { r with durationMin := some 0 } = isProf cfg r := rfl
    simp only [resolveWindow, List.filter_cons, hIs]
    cases hp : isProf cfg r <;> simp

/-- A concrete row with a non-numeric duration cell. -/
def rowNoDur : Row :=
  { userName := some "Eve", userEmail := none
    joinTime := 5, leaveTime := 30, durationMin := none }

/-- Witness for C6 at a concrete input. -/
theorem claim6_witness :
    (aggStudent cfg0 "Eve" [rowNoDur]).totalMinutes
      = (aggStudent cfg0 "Eve" [{ rowNoDur with durationMin := some 0 }]).totalMinutes ∧
    (aggStudent cfg0 "Eve" [rowNoDur]).rawSessions = 1 := by
  have h := claim6_null_duration cfg0 "Eve" rowNoDur [] [] rfl
  exact ⟨h.1, h.2.1⟩

/-- C8: every produced summary counts at least one raw session, and the
real sessions (strictly above the ghost threshold) never exceed the raw
count. -/
theorem claim8_session_count_invariant (cfg : Config) (rows : List Row) (s : Summary)
    (hs : s ∈ summarize cfg rows) :
    1 ≤ s.rawSessions ∧ s.realSessions ≤ s.rawSessions := by
  simp only [summarize, List.mem_map] at hs
  rcases hs with ⟨n, hn, rfl⟩
  constructor
  · rw [dedupKeepFirst_mem] at hn
    rcases List.mem_filterMap.mp hn with ⟨r, hr, hname⟩
    have hrg : r ∈ groupOf (studentRows cfg rows) n := by
      rw [groupOf, List.mem_filter]
      exact ⟨hr, by rw [hname]; simp⟩
    have hlen : 0 < (groupOf (studentRows cfg rows) n).length :=
      List.length_pos.mpr (List.ne_nil_of_mem hrg)
    simpa [aggStudent] using hlen
  · simp only [aggStudent]
    exact List.length_filter_le _ _

/-- The summary the aggregator produces for the single row rowAlice. -/
def sAlice : Summary :=
  aggStudent cfg0 "Alice" (groupOf (studentRows cfg0 [rowAlice]) "Alice")

/-- Witness for C8 at a concrete input. -/
theorem claim8_witness : 1 ≤ sAlice.rawSessions ∧ sAlice.realSessions ≤ sAlice.rawSessions := by
  have hmem : sAlice ∈ summarize cfg0 [rowAlice] := by
    have h : summarize cfg0 [rowAlice] = [sAlice] := rfl
    rw [h]
    exact List.mem_singleton_self _
  exact claim8_session_count_invariant cfg0 [rowAlice] sAlice hmem

/-- Half-even rounding of a non-positive value is non-positive. -/
theorem rhe_nonpos {x : ℚ} (h : x ≤ 0) : rhe x ≤ 0 := by
  have hf : ⌊x⌋ ≤ 0 := Int.floor_nonpos h
  rw [rhe]
  by_cases h1 : x - (⌊x⌋ : ℚ) < 1/2
  · rw [if_pos h1]
    exact hf
  · have hle : (⌊x⌋ : ℚ) ≤ x - 1/2 := by
      have := not_lt.mp h1
      linarith
    have hneg : (⌊x⌋ : ℚ) < 0 := by linarith
    have hzneg : ⌊x⌋ < 0 := by exact_mod_cast hneg
    have hstep : ⌊x⌋ + 1 ≤ 0 := by omega
    rw [if_neg h1]
    by_cases h2 : 1/2 < x - (⌊x⌋ : ℚ)
    · rw [if_pos h2]
      exact hstep
    · rw [if_neg h2]
      by_cases h3 : ⌊x⌋ % 2 = 0
      · rw [if_pos h3]
        exact hf
      · rw [if_neg h3]
        exact hstep

/-- Rounding to one decimal keeps a non-positive value non-positive. -/
theorem round1_nonpos {x : ℚ} (h : x ≤ 0) : round1 x ≤ 0 := by
  have h10 : (10 : ℚ) * x ≤ 0 := by linarith
  have hz : rhe (10 * x) ≤ 0 := rhe_nonpos h10
  have hq : ((rhe (10 * x) : ℤ) : ℚ) ≤ 0 := by exact_mod_cast hz
  rw [round1]
  linarith

/-- A summary joining at 0.26 minutes past the window start: the claimed
formula gives 0.26 late minutes, the code rounds to 0.3. -/
def s9 : Summary :=
  { userName := "Bob", email := "", totalMinutes := 59, rawSessions := 1
    realSessions := 1, firstJoin := 13/50, lastLeave := 60 }

/-- C9 as stated is false: late_minutes is not max(0, minutes from start
to first join) — the code rounds the difference to one decimal before
clamping, so a 0.26-minute difference is reported as 0.3. -/
theorem claim9_counterexample :
    (classify cfg0 ⟨0, 60⟩ s9).lateJoinMin = 3/10 ∧
    max 0 (s9.firstJoin - (0 : ℚ)) = 13/50 ∧
    (3/10 : ℚ) ≠ 13/50 := by
  refine ⟨?_, by norm_num [s9], by norm_num⟩
  norm_num [classify, s9, round1, rhe, max_def]

/-- C9 amended: late_minutes is max(0, round-to-one-decimal of the
minutes from window.start to first_join), early_leave_minutes is max(0,
round-to-one-decimal of the minutes from last_leave to window.end); the
flags are strict comparisons against the thresholds; joining at or
before window.start still gives late_minutes = 0, and leaving at or
after window.end gives early_leave_minutes = 0. -/
theorem claim9_late_early_flags (cfg : Config) (w : Window) (s : Summary) :
    (classify cfg w s).lateJoinMin = max (round1 (s.firstJoin - w.start)) 0 ∧
    (classify cfg w s).leftEarlyMin = max (round1 (w.stop - s.lastLeave)) 0 ∧
    ((classify cfg w s).isLate = true ↔
      cfg.lateThresholdMin < (classify cfg w s).lateJoinMin) ∧
    ((classify cfg w s).leftEarly = true ↔
      cfg.earlyLeaveThresholdMin < (classify cfg w s).leftEarlyMin) ∧
    (s.firstJoin ≤ w.start → (classify cfg w s).lateJoinMin = 0) ∧
    (w.stop ≤ s.lastLeave → (classify cfg w s).leftEarlyMin = 0) := by
  refine ⟨rfl, rfl, by simp [classify], by simp [classify], fun h => ?_, fun h => ?_⟩
  · show max (round1 (s.firstJoin - w.start)) 0 = 0
    exact max_eq_right (round1_nonpos (sub_nonpos.mpr h))
  · show max (round1 (w.stop - s.lastLeave)) 0 = 0
    exact max_eq_right (round1_nonpos (sub_nonpos.mpr h))

/-- A summary joining before the window start. -/
def sEarly : Summary :=
  { userName := "Cam", email := "", totalMinutes := 60, rawSessions := 1
    realSessions := 1, firstJoin := 5, lastLeave := 70 }

/-- Witness for C9 amended at a concrete input: joining before the
window start yields zero late minutes. -/
theorem claim9_witness : (classify cfg0 ⟨10, 60⟩ sEarly).lateJoinMin = 0 :=
  (claim9_late_early_flags cfg0 ⟨10, 60⟩ sEarly).2.2.2.2.1 (by norm_num [sEarly])

/-- Dropping the unnamed rows changes neither the group of any key... -/
theorem groupOf_filter_isSome (L : List Row) (n : String) :
    groupOf (L.filter fun r => r.userName.isSome) n = groupOf L n := by
  rw [groupOf, groupOf, List.filter_filter]
  apply List.filter_congr
  intro a _
  cases ha : a.userName <;> simp [ha]

/-- ... nor the list of group keys. -/
theorem filterMap_name_filter_isSome (L : List Row) :
    (L.filter fun r => r.userName.isSome).filterMap (·.userName)
      = L.filterMap (·.userName) := by
  induction L with
  | nil => rfl
  | cons r t ih =>
    cases h : r.userName with
    | none => simp [List.filter_cons, List.filterMap_cons, h, ih]
    | some m => simp [List.filter_cons, List.filterMap_cons, h, ih]

/-- C10: a row with a missing participant name passes the exclusion
filter (a null name is never in the excluded set), is represented in no
ParticipantSummary (the summaries are unchanged when unnamed rows are
dropped), and in the fallback case its timestamps still bound the
resolved window. -/
theorem claim10_null_name (cfg : Config) (rows : List Row) (r0 : Row) (w : Window)
    (warn : Bool) :
    (r0.userName = none → notExcluded cfg r0 = true) ∧
    summarize cfg rows = summarize cfg (rows.filter fun r => r.userName.isSome) ∧
    (r0 ∈ rows → r0.userName = none → rows.filter (isProf cfg) = [] →
      resolveWindow cfg rows = some (w, warn) →
      w.start ≤ r0.joinTime ∧ r0.leaveTime ≤ w.stop) := by
  refine ⟨fun h => by simp [notExcluded, h], ?_, ?_⟩
  · have hS : studentRows cfg (rows.filter fun r => r.userName.isSome)
        = (studentRows cfg rows).filter fun r => r.userName.isSome := by
      rw [studentRows, studentRows]
      exact List.filter_comm _ _ _
    rw [summarize, summarize, hS, filterMap_name_filter_isSome]
    apply List.map_congr_left
    intro n _
    rw [groupOf_filter_isSome]
  · intro hmem hnone hnoprof heq
    cases rows with
    | nil => cases hmem
    | cons a t =>
      rw [resolveWindow] at heq
      rw [hnoprof] at heq
      simp only [List.isEmpty_nil, if_true] at heq
      have hw : w = ⟨listMinD ((a :: t).map (·.joinTime)), listMaxD ((a :: t).map (·.leaveTime))⟩ := by
        cases heq
        rfl
      subst hw
      exact ⟨listMinD_le _ _ (List.mem_map_of_mem _ hmem),
        listMaxD_ge _ _ (List.mem_map_of_mem _ hmem)⟩

/-- A row with a missing name that holds the extremal timestamps. -/
def rowNull : Row :=
  { userName := none, userEmail := none
    joinTime := -5, leaveTime := 100, durationMin := some 3 }

/-- Witness for C10 at a concrete input: the unnamed row survives the
exclusion filter and its timestamps bound the fallback window. -/
theorem claim10_witness :
    notExcluded cfg0 rowNull = true ∧
    ((-5 : ℚ) ≤ rowNull.joinTime ∧ rowNull.leaveTime ≤ 100) := by
  have h := claim10_null_name cfg0 [rowNull, rowAlice] rowNull ⟨-5, 100⟩ true
  refine ⟨h.1 rfl, ?_⟩
  exact h.2.2 (List.mem_cons_self _ _) rfl rfl rfl

/-- The rows that bear a participant name (the only ones groupby keeps). -/
def namedRows (L : List Row) : List Row := L.filter fun r => r.userName.isSome

/-- The unrounded duration total of the group of key n. -/
def groupTotal (L : List Row) (n : String) : ℚ := ((groupOf L n).map durD).sum

/-- The rows outside the group of key n. -/
def dropName (L : List Row) (n : String) : List Row :=
  L.filter fun r => !(decide (r.userName = some n))

/-- Splitting the named duration total at one key. -/
theorem namedSum_split (L : List Row) (k : String) :
    ((namedRows L).map durD).sum
      = groupTotal L k + ((namedRows (dropName L k)).map durD).sum := by
  induction L with
  | nil => simp [namedRows, groupTotal, groupOf, dropName]
  | cons r t ih =>
    by_cases hk : r.userName = some k
    · have hs : r.userName.isSome = true := by rw [hk]; rfl
      have h1 : namedRows (r :: t) = r :: namedRows t := by
        simp [namedRows, List.filter_cons, hs]
      have h2 : groupTotal (r :: t) k = durD r + groupTotal t k := by
        simp [groupTotal, groupOf, List.filter_cons, hk]
      have h3 : dropName (r :: t) k = dropName t k := by
        simp [dropName, List.filter_cons, hk]
      rw [h1, List.map_cons, List.sum_cons, h2, h3, ih]
      ring
    · have h3 : dropName (r :: t) k = r :: dropName t k := by
        simp [dropName, List.filter_cons, hk]
      have h2 : groupTotal (r :: t) k = groupTotal t k := by
        simp [groupTotal, groupOf, List.filter_cons, hk]
      cases hu : r.userName with
      | none =>
        have h1 : namedRows (r :: t) = namedRows t := by
          simp [namedRows, List.filter_cons, hu]
        have h4 : namedRows (r :: dropName t k) = namedRows (dropName t k) := by
          simp [namedRows, List.filter_cons, hu]
        rw [h1, h2, h3, h4, ih]
      | some m =>
        have h1 : namedRows (r :: t) = r :: namedRows t := by
          simp [namedRows, List.filter_cons, hu]
        have h4 : namedRows (r :: dropName t k) = r :: namedRows (dropName t k) := by
          simp [namedRows, List.filter_cons, hu]
        rw [h1, h3, h4, h2, List.map_cons, List.sum_cons, List.map_cons, List.sum_cons, ih]
        ring

/-- Removing the group of a different key leaves a group unchanged. -/
theorem groupOf_dropName (L : List Row) {n k : String} (hnk : n ≠ k) :
    groupOf (dropName L k) n = groupOf L n := by
  rw [groupOf, groupOf, dropName, List.filter_filter]
  apply List.filter_congr
  intro a _
  by_cases ha : a.userName = some n
  · have hak : ¬ a.userName = some k := by rw [ha]; simp [hnk]
    simp [ha, hak, hnk]
  · simp [ha]

/-- Summing the group totals over a duplicate-free cover of the keys
yields the duration total of all named rows. -/
theorem groupTotals_cover : ∀ (ks : List String) (L : List Row), ks.Nodup →
    (∀ r ∈ L, ∀ n, r.userName = some n → n ∈ ks) →
    (ks.map (groupTotal L)).sum = ((namedRows L).map durD).sum := by
  intro ks
  induction ks with
  | nil =>
    intro L _ hcov
    have hnil : namedRows L = [] := by
      rw [namedRows, List.filter_eq_nil_iff]
      intro r hr
      cases hu : r.userName with
      | none => simp
      | some m => exact absurd (hcov r hr m hu) (List.not_mem_nil m)
    rw [hnil]
    simp
  | cons k ks ih =>
    intro L hnodup hcov
    have hk_not : k ∉ ks := (List.nodup_cons.mp hnodup).1
    have hnd : ks.Nodup := (List.nodup_cons.mp hnodup).2
    have hmapeq : ks.map (groupTotal L) = ks.map (groupTotal (dropName L k)) := by
      apply List.map_congr_left
      intro n hn
      have hne : n ≠ k := fun he => hk_not (he ▸ hn)
      rw [groupTotal, groupTotal, groupOf_dropName _ hne]
    have hcov2 : ∀ r ∈ dropName L k, ∀ n, r.userName = some n → n ∈ ks := by
      intro r hr n hu
      have hrL : r ∈ L := List.mem_of_mem_filter hr
      have hrk : (!decide (r.userName = some k)) = true := (List.mem_filter.mp hr).2
      have hne : n ≠ k := by
        intro he
        subst he
        rw [hu] at hrk
        simp at hrk
      rcases List.mem_cons.mp (hcov r hrL n hu) with he | hmemks
      · exact absurd he hne
      · exact hmemks
    rw [List.map_cons, List.sum_cons, namedSum_split L k, hmapeq,
      ih (dropName L k) hnd hcov2]

/-- C7 amended: conservation holds for the unrounded group totals: the
sum over all produced summaries of their group's raw duration total
equals the duration sum (nulls as 0) of the non-excluded rows that bear
a name; each reported total_minutes is that group total rounded to one
decimal, which is why the sum of the reported totals can differ. -/
theorem claim7_conservation_modulo_rounding (cfg : Config) (rows : List Row) :
    ((summarize cfg rows).map fun s => groupTotal (studentRows cfg rows) s.userName).sum
      = ((namedRows (studentRows cfg rows)).map durD).sum ∧
    ∀ s ∈ summarize cfg rows,
      s.totalMinutes = round1 (groupTotal (studentRows cfg rows) s.userName) := by
  constructor
  · have hnames : (summarize cfg rows).map (fun s => groupTotal (studentRows cfg rows) s.userName)
        = (dedupKeepFirst ((studentRows cfg rows).filterMap (·.userName))).map
            (groupTotal (studentRows cfg rows)) := by
      have hcomp : (fun s : Summary => groupTotal (studentRows cfg rows) s.userName)
          = (groupTotal (studentRows cfg rows)) ∘ (fun s : Summary => s.userName) := rfl
      rw [hcomp, ← List.map_map, summarize_names]
    rw [hnames]
    apply groupTotals_cover _ _ (dedupKeepFirst_nodup _)
    intro r hr n hu
    rw [dedupKeepFirst_mem]
    exact List.mem_filterMap.mpr ⟨r, hr, by rw [hu]⟩
  · intro s hs
    simp only [summarize, List.mem_map] at hs
    rcases hs with ⟨n, hn, rfl⟩
    rfl

/-- A row with duration 0.04, rounded away in its group total. -/
def rowSmallA : Row :=
  { userName := some "a", userEmail := none
    joinTime := 0, leaveTime := 60, durationMin := some (1/25) }

/-- A second 0.04-minute row under a different name. -/
def rowSmallB : Row :=
  { userName := some "b", userEmail := none
    joinTime := 0, leaveTime := 60, durationMin := some (1/25) }

/-- Interval set breaking exact conservation: two sub-0.05 durations that
round to 0, and an unnamed non-excluded row whose 3 minutes appear in no
summary. -/
def rows7 : List Row := [rowSmallA, rowSmallB, rowNull]

/-- C7 as stated is false: the sum of the reported (rounded) total
minutes over all summaries is 0, while the duration sum of the
non-excluded intervals is 77/25. -/
theorem claim7_counterexample :
    ((summarize cfg0 rows7).map (·.totalMinutes)).sum = 0 ∧
    ((studentRows cfg0 rows7).map durD).sum = 77/25 ∧
    (0 : ℚ) ≠ 77/25 := by
  have hs : summarize cfg0 rows7
      = [aggStudent cfg0 "a" [rowSmallA], aggStudent cfg0 "b" [rowSmallB]] := rfl
  have hst : studentRows cfg0 rows7 = [rowSmallA, rowSmallB, rowNull] := rfl
  refine ⟨?_, ?_, by norm_num⟩
  · rw [hs]
    norm_num [aggStudent, durD, rowSmallA, rowSmallB, round1, rhe]
  · rw [hst]
    norm_num [durD, rowSmallA, rowSmallB, rowNull]

/-- Witness for C7 amended at a concrete input: the reported total of
the single summary is the rounded group total. -/
theorem claim7_witness :
    sAlice.totalMinutes = round1 (groupTotal (studentRows cfg0 [rowAlice]) sAlice.userName) := by
  have hmem : sAlice ∈ summarize cfg0 [rowAlice] := by
    have h : summarize cfg0 [rowAlice] = [sAlice] := rfl
    rw [h]
    exact List.mem_singleton_self _
  exact (claim7_conservation_modulo_rounding cfg0 [rowAlice]).2 sAlice hmem

end Attendance
